import Mathlib

/-!
Verification of the grid-search suggestion engine (`grid_search.py` and
`sweeps/grid_search.py`).  The Python values flowing through the engine are
dynamically typed nested data (ints, strings, None, lists, tuples); they are
embedded as the mutual inductive `Value`/`ValueList`.  The two grid-search
entry points are embedded as `grid_search_next_runs` (the canonicalizing
implementation of `grid_search.py`) and `grid_search_next_run` (the legacy
implementation of `sweeps/grid_search.py`).  Python exceptions are embedded
as an `Except Err` result: `Err.keyError` for `KeyError` (failed dict
lookup), `Err.valueError` for `ValueError` (the configuration errors the
source raises), `Err.typeError` for `TypeError` (hashing an unhashable
value during `set(...)` construction).
-/

mutual
/-- A Python value as seen by the grid-search engine: a scalar (int, str,
None) or a nested sequence (list or tuple). -/
inductive Value where
  | vint : Int → Value
  | vstr : String → Value
  | vnone : Value
  | vlist : ValueList → Value
  | vtuple : ValueList → Value
deriving DecidableEq, Repr

/-- The elements of a Python list or tuple, in order. -/
inductive ValueList where
  | nil : ValueList
  | cons : Value → ValueList → ValueList
deriving DecidableEq, Repr
end

mutual
/-- Source `grid_search.py` line 10-11:
`return tuple(list_to_tuple(x) for x in obj) if type(obj) is list else obj`.
Only values whose outermost type is `list` are converted (and their elements
recursively); tuples are returned unchanged, elements included. -/
def list_to_tuple : Value → Value
  | .vlist xs => .vtuple (listToTupleL xs)
  | v => v

/-- Elementwise `list_to_tuple` over the elements of a sequence. -/
def listToTupleL : ValueList → ValueList
  | .nil => .nil
  | .cons x xs => .cons (list_to_tuple x) (listToTupleL xs)
end

mutual
/-- Source `grid_search.py` line 14-15:
`return list(tuple_to_list(x) for x in obj) if type(obj) is tuple else obj`. -/
def tuple_to_list : Value → Value
  | .vtuple xs => .vlist (tupleToListL xs)
  | v => v

/-- Elementwise `tuple_to_list` over the elements of a sequence. -/
def tupleToListL : ValueList → ValueList
  | .nil => .nil
  | .cons x xs => .cons (tuple_to_list x) (tupleToListL xs)
end

mutual
/-- Whether a Python value is hashable: scalars and tuples of hashable
values are hashable, lists never are.  Inserting an unhashable value into a
`set` raises `TypeError` in Python. -/
def Value.hashable : Value → Bool
  | .vlist _ => false
  | .vtuple xs => ValueList.hashableL xs
  | _ => true

/-- Whether every element of a sequence is hashable. -/
def ValueList.hashableL : ValueList → Bool
  | .nil => true
  | .cons x xs => Value.hashable x && ValueList.hashableL xs
end

mutual
/-- Whether a value is built from scalars and lists only (no tuples
anywhere): the shape of values that arrive from a JSON-like sweep
configuration. -/
def Value.listy : Value → Bool
  | .vtuple _ => false
  | .vlist xs => ValueList.listyL xs
  | _ => true

/-- Whether every element of a sequence is built from scalars and lists. -/
def ValueList.listyL : ValueList → Bool
  | .nil => true
  | .cons x xs => Value.listy x && ValueList.listyL xs
end

/-- Whether a value is a scalar (not a list and not a tuple). -/
def Value.scalar : Value → Bool
  | .vlist _ => false
  | .vtuple _ => false
  | _ => true

/-- A Python dict from parameter name to a value, as an association list in
insertion order; all observations of configs in the claims go through
`List.lookup`.  For `SweepRun.config` this models `name ↦ config[name]["value"]`
(the inner one-field dict of the source is elided); for the legacy
`Run.config` it models `name ↦ config[name]` directly. -/
abbrev Config := List (String × Value)

/-- A run of the sweep (`SweepRun` of `grid_search.py`), reduced to the one
field the engine reads and writes. -/
structure SweepRun where
  config : Config
deriving DecidableEq, Repr

/-- A run of the sweep in the legacy implementation (`Run` of
`sweeps/grid_search.py`). -/
structure Run where
  config : Config
deriving DecidableEq, Repr

/-- The classification of a declared hyperparameter (`HyperParameter.type`
in the source's `params` module): categorical, constant, or one of the
kinds grid search rejects (represented by the continuous `int_uniform`
min/max kind used in the repository's test fixtures). -/
inductive HPType where
  | categorical
  | constant
  | int_uniform
deriving DecidableEq, Repr

/-- A declared hyperparameter after classification: its name, its kind, the
candidate values of a categorical parameter (`config["values"]`) and the
fixed value of a constant parameter (`config["value"]`). -/
structure HyperParameter where
  name : String
  type : HPType
  values : List Value := []
  value : Value := .vnone
deriving DecidableEq, Repr

/-- A sweep configuration as the engine reads it: the optional `method`
field and the optional `parameters` section.  Modelled from the spec: the
`parameters` section is held as the classified parameter list that
`HyperParameterSet.from_config` (in the `params` module, which is not part
of the analysed sources) produces from the raw dicts, per the spec's data
model of ParameterSpec and SearchSpace. -/
structure SweepConfig where
  method : Option String := none
  parameters : Option (List HyperParameter) := none
deriving DecidableEq, Repr

/-- Modelled from the spec: `SweepConfig(sweep_config)` validates the
description against the sweep-config JSON schema.  The schema validator is
an external collaborator, out of scope of the core; on well-formed
descriptions it returns the configuration unchanged, and nothing in the
spec has it reject a well-formed description of a non-grid method. -/
def SweepConfigOf (c : SweepConfig) : SweepConfig := c

/-- A Python exception surfaced by the engine. -/
inductive Err where
  | keyError : String → Err
  | valueError : String → Err
  | typeError : Err
deriving DecidableEq, Repr

/-- Message of `grid_search.py` line 48. -/
def invalidMethodMsg : String := "Invalid sweep configuration for grid_search_next_run."

/-- Message of `grid_search.py` line 51 and `sweeps/grid_search.py` line 21. -/
def missingParamsMsg : String := "Grid search requires parameters section"

/-- Message of `grid_search.py` lines 57-60 and `sweeps/grid_search.py`
lines 27-31, naming the offending parameter. -/
def disallowedMsg (name : String) : String :=
  "Parameter " ++ name ++ " is a disallowed type with grid search. Grid search requires all parameters to be categorical or constant"

/-- The per-parameter test of the classification loop (`grid_search.py`
lines 55-60): true of the parameters grid search must reject. -/
def disallowedType (p : HyperParameter) : Bool :=
  p.type != HPType.categorical && p.type != HPType.constant

/-- `itertools.product` over a list of candidate lists, in the order
`itertools.product` generates (rightmost axis varies fastest). -/
def listProd {α : Type} : List (List α) → List (List α)
  | [] => [[]]
  | vs :: rest => vs.flatMap (fun v => (listProd rest).map (fun t => v :: t))

/-- The canonicalized candidate values of one categorical parameter
(`grid_search.py` line 73: `list_to_tuple(p.config["values"])` builds the
tuple of the canonicalized candidates, which `itertools.product` then
iterates). -/
def canonValues (p : HyperParameter) : List Value := p.values.map list_to_tuple

/-- The grid universe before set-deduplication (`grid_search.py` line 75). -/
def universeCanon (discrete : List HyperParameter) : List (List Value) :=
  listProd (discrete.map canonValues)

/-- The projection of one run's config onto the categorical parameter
names (`grid_search.py` lines 78-82): only the names present in the run's
own config contribute, and each contributed value is canonicalized. -/
def projCanon (names : List String) (c : Config) : List Value :=
  names.filterMap (fun nm => (List.lookup nm c).map list_to_tuple)

/-- The seen-set contents before set-deduplication (`grid_search.py` lines
76-85). -/
def seenCanon (names : List String) (runs : List SweepRun) : List (List Value) :=
  runs.map (fun r => projCanon names r.config)

/-- `remaining_params` of `grid_search.py` line 88: the set difference
`all_param_values - param_values_seen`, as the deduplicated universe with
the seen points removed. -/
def remainingCanon (discrete : List HyperParameter) (names : List String)
    (runs : List SweepRun) : List (List Value) :=
  (universeCanon discrete).dedup.filter (fun t => decide (t ∉ (seenCanon names runs).dedup))

/-- The output config of one suggestion (`grid_search.py` lines 96-102):
each chosen grid component is un-canonicalized with `tuple_to_list` and
bound to its parameter name, and the constant config is merged in by
`dict.update`, so on a (never occurring) name clash the constant wins;
the merge is modelled with the constant entries in front so that
`List.lookup` gives `dict.update` semantics. -/
def mkOutputConfig (discrete : List HyperParameter) (constantConfig : Config)
    (t : List Value) : Config :=
  constantConfig ++ List.zipWith (fun p v => (p.name, tuple_to_list v)) discrete t

/-- Embedding of `grid_search_next_runs` (`grid_search.py` lines 18-108).
The in-place `random.shuffle` on the process-wide random state is modelled
by the explicit permutation oracle `shuffle`, applied only when
`randomize_order` is true. -/
def grid_search_next_runs (runs : List SweepRun) (sweep_config : SweepConfig)
    (validate : Bool) (n : Nat) (randomize_order : Bool)
    (shuffle : List (List Value) → List (List Value)) :
    Except Err (List (Option SweepRun)) :=
  let cfg := if validate then SweepConfigOf sweep_config else sweep_config
  match cfg.method with
  | none => .error (.keyError "method")
  | some m =>
    if m != "grid" then .error (.valueError invalidMethodMsg)
    else
      match cfg.parameters with
      | none => .error (.valueError missingParamsMsg)
      | some params =>
        match params.find? disallowedType with
        | some p => .error (.valueError (disallowedMsg p.name))
        | none =>
          let discrete_params := params.filter (fun p => p.type == HPType.categorical)
          let constant_params := params.filter (fun p => p.type == HPType.constant)
          let constant_config : Config := constant_params.map (fun p => (p.name, p.value))
          let param_names := discrete_params.map (fun p => p.name)
          if (universeCanon discrete_params).any (fun t => !t.all Value.hashable) then
            .error .typeError
          else if (seenCanon param_names runs).any (fun t => !t.all Value.hashable) then
            .error .typeError
          else
            let remaining := remainingCanon discrete_params param_names runs
            let n_remaining := remaining.length
            let remaining' := if randomize_order then shuffle remaining else remaining
            let retval : List (Option SweepRun) :=
              (remaining'.take (min n n_remaining)).map
                (fun t => some { config := mkOutputConfig discrete_params constant_config t })
            .ok (if n_remaining < n then retval ++ [none] else retval)

/-- The projection of one legacy run onto the categorical names
(`sweeps/grid_search.py` line 151: `tuple(run.config[name] for name in
param_names)`): every name is looked up unconditionally, so a missing name
raises `KeyError`; the values are not canonicalized. -/
def projLegacy (names : List String) (c : Config) : Except Err (List Value) :=
  match names with
  | [] => .ok []
  | nm :: rest =>
    match List.lookup nm c with
    | none => .error (.keyError nm)
    | some v => (projLegacy rest c).map (fun t => v :: t)

/-- The legacy seen-set contents (`sweeps/grid_search.py` lines 150-152),
with the first `KeyError` of the comprehension propagated. -/
def seenLegacy (names : List String) : List Run → Except Err (List (List Value))
  | [] => .ok []
  | r :: rest =>
    match projLegacy names r.config with
    | .error e => .error e
    | .ok t => (seenLegacy names rest).map (fun s => t :: s)

/-- The legacy `remaining_params` (`sweeps/grid_search.py` line 155) given
the already-built seen list. -/
def remainingLegacy (discrete : List HyperParameter) (seenList : List (List Value)) :
    List (List Value) :=
  (listProd (discrete.map (fun p => p.values))).dedup.filter
    (fun t => decide (t ∉ seenList.dedup))

/-- Embedding of the legacy `grid_search_next_run` (`sweeps/grid_search.py`
lines 12-54).  It validates through the external `SweepConfig` constructor,
performs no `method` check, does not canonicalize values, indexes every
categorical name of every run, and returns the bare categorical assignment
(no constant parameters) or `none` on exhaustion. -/
def grid_search_next_run (runs : List Run) (sweep_config : SweepConfig)
    (randomize_order : Bool)
    (shuffle : List (List Value) → List (List Value)) : Except Err (Option Run) :=
  let cfg := SweepConfigOf sweep_config
  match cfg.parameters with
  | none => .error (.valueError missingParamsMsg)
  | some params =>
    match params.find? disallowedType with
    | some p => .error (.valueError (disallowedMsg p.name))
    | none =>
      let discrete_params := params.filter (fun p => p.type == HPType.categorical)
      let param_names := discrete_params.map (fun p => p.name)
      if (listProd (discrete_params.map (fun p => p.values))).any
          (fun t => !t.all Value.hashable) then
        .error .typeError
      else
        match seenLegacy param_names runs with
        | .error e => .error e
        | .ok seenList =>
          if seenList.any (fun t => !t.all Value.hashable) then
            .error .typeError
          else
            let remaining := remainingLegacy discrete_params seenList
            let remaining' := if randomize_order then shuffle remaining else remaining
            match remaining' with
            | [] => .ok none
            | t :: _ => .ok (some { config := List.zip param_names t })

/-! ### Basic facts about values and canonicalization -/

theorem list_to_tuple_scalar {v : Value} (h : v.scalar = true) : list_to_tuple v = v := by
  cases v <;> simp_all [Value.scalar, list_to_tuple]

theorem tuple_to_list_scalar {v : Value} (h : v.scalar = true) : tuple_to_list v = v := by
  cases v <;> simp_all [Value.scalar, tuple_to_list]

theorem hashable_of_scalar {v : Value} (h : v.scalar = true) : v.hashable = true := by
  cases v <;> simp_all [Value.scalar, Value.hashable]

mutual
/-- On values built from scalars and lists only, un-canonicalization undoes
canonicalization. -/
theorem tuple_to_list_list_to_tuple :
    ∀ v : Value, v.listy = true → tuple_to_list (list_to_tuple v) = v
  | .vint _, _ => rfl
  | .vstr _, _ => rfl
  | .vnone, _ => rfl
  | .vtuple _, h => by simp [Value.listy] at h
  | .vlist xs, h => by
      have hL : ValueList.listyL xs = true := by simpa [Value.listy] using h
      simp [list_to_tuple, tuple_to_list, tupleToListL_listToTupleL xs hL]

theorem tupleToListL_listToTupleL :
    ∀ xs : ValueList, ValueList.listyL xs = true → tupleToListL (listToTupleL xs) = xs
  | .nil, _ => rfl
  | .cons x xs, h => by
      have h1 : x.listy = true := by
        simp [ValueList.listyL] at h; exact h.1
      have h2 : ValueList.listyL xs = true := by
        simp [ValueList.listyL] at h; exact h.2
      simp [listToTupleL, tupleToListL, tuple_to_list_list_to_tuple x h1,
        tupleToListL_listToTupleL xs h2]
end

mutual
/-- On hashable values (the members of the canonical grid universe),
canonicalization undoes un-canonicalization. -/
theorem list_to_tuple_tuple_to_list :
    ∀ v : Value, v.hashable = true → list_to_tuple (tuple_to_list v) = v
  | .vint _, _ => rfl
  | .vstr _, _ => rfl
  | .vnone, _ => rfl
  | .vlist _, h => by simp [Value.hashable] at h
  | .vtuple xs, h => by
      have hL : ValueList.hashableL xs = true := by simpa [Value.hashable] using h
      simp [list_to_tuple, tuple_to_list, listToTupleL_tupleToListL xs hL]

theorem listToTupleL_tupleToListL :
    ∀ xs : ValueList, ValueList.hashableL xs = true → listToTupleL (tupleToListL xs) = xs
  | .nil, _ => rfl
  | .cons x xs, h => by
      have h1 : x.hashable = true := by
        simp [ValueList.hashableL] at h; exact h.1
      have h2 : ValueList.hashableL xs = true := by
        simp [ValueList.hashableL] at h; exact h.2
      simp [listToTupleL, tupleToListL, list_to_tuple_tuple_to_list x h1,
        listToTupleL_tupleToListL xs h2]
end

mutual
/-- Canonicalizing a value built from scalars and lists yields a hashable
value. -/
theorem hashable_list_to_tuple :
    ∀ v : Value, v.listy = true → (list_to_tuple v).hashable = true
  | .vint _, _ => rfl
  | .vstr _, _ => rfl
  | .vnone, _ => rfl
  | .vtuple _, h => by simp [Value.listy] at h
  | .vlist xs, h => by
      have hL : ValueList.listyL xs = true := by simpa [Value.listy] using h
      simpa [list_to_tuple, Value.hashable] using hashableL_listToTupleL xs hL

theorem hashableL_listToTupleL :
    ∀ xs : ValueList, ValueList.listyL xs = true → ValueList.hashableL (listToTupleL xs) = true
  | .nil, _ => rfl
  | .cons x xs, h => by
      have h1 : x.listy = true := by
        simp [ValueList.listyL] at h; exact h.1
      have h2 : ValueList.listyL xs = true := by
        simp [ValueList.listyL] at h; exact h.2
      simp [listToTupleL, ValueList.hashableL, hashable_list_to_tuple x h1,
        hashableL_listToTupleL xs h2]
end

/-! ### Facts about the Cartesian product -/

theorem mem_listProd {α : Type} {ls : List (List α)} {t : List α} :
    t ∈ listProd ls ↔ List.Forall₂ (fun v vs => v ∈ vs) t ls := by
  induction ls generalizing t with
  | nil =>
    simp only [listProd, List.mem_singleton, List.forall₂_nil_right_iff]
  | cons vs rest ih =>
    simp only [listProd, List.mem_flatMap, List.mem_map, List.forall₂_cons_right_iff]
    constructor
    · rintro ⟨v, hv, t', ht', rfl⟩
      exact ⟨v, t', hv, ih.mp ht', rfl⟩
    · rintro ⟨v, t', hv, ht', rfl⟩
      exact ⟨v, hv, t', ih.mpr ht', rfl⟩

theorem length_eq_of_mem_listProd {α : Type} {ls : List (List α)} {t : List α}
    (h : t ∈ listProd ls) : t.length = ls.length :=
  (mem_listProd.mp h).length_eq

theorem listProd_length {α : Type} (ls : List (List α)) :
    (listProd ls).length = (ls.map List.length).prod := by
  induction ls with
  | nil => rfl
  | cons vs rest ih =>
    simp only [listProd, List.length_flatMap, List.map_cons, List.prod_cons, ← ih]
    simp [Function.comp_def, List.map_const', List.sum_replicate, smul_eq_mul]

theorem listProd_nodup {α : Type} [DecidableEq α] {ls : List (List α)}
    (h : ∀ l ∈ ls, l.Nodup) : (listProd ls).Nodup := by
  induction ls with
  | nil => simp [listProd]
  | cons vs rest ih =>
    have hvs : vs.Nodup := h vs (by simp)
    have hrest : (listProd rest).Nodup := ih (fun l hl => h l (by simp [hl]))
    simp only [listProd]
    rw [List.nodup_flatMap]
    refine ⟨fun v _ => hrest.map (fun a b hab => by simpa using hab), ?_⟩
    refine hvs.imp ?_
    intro a b hab x hxa hxb
    simp only [List.mem_map] at hxa hxb
    obtain ⟨ta, _, rfl⟩ := hxa
    obtain ⟨tb, _, htb⟩ := hxb
    rw [List.cons.injEq] at htb
    exact hab htb.1.symm

/-! ### Facts about association-list lookup -/

theorem lookup_append_of_some {l₁ l₂ : Config} {a : String} {v : Value}
    (h : List.lookup a l₁ = some v) : List.lookup a (l₁ ++ l₂) = some v := by
  rw [List.lookup_append, h]; rfl

theorem lookup_append_of_none {l₁ l₂ : Config} {a : String}
    (h : List.lookup a l₁ = none) : List.lookup a (l₁ ++ l₂) = List.lookup a l₂ := by
  rw [List.lookup_append, h, Option.none_or]

theorem lookup_map_name {l : List HyperParameter} {p : HyperParameter}
    (hnd : (l.map (fun q => q.name)).Nodup) (hp : p ∈ l) :
    List.lookup p.name (l.map (fun q => (q.name, q.value))) = some p.value := by
  induction l with
  | nil => cases hp
  | cons q l ih =>
    rcases List.mem_cons.mp hp with rfl | hp
    · simp [List.lookup_cons]
    · have hne : p.name ≠ q.name := by
        intro he
        exact (List.nodup_cons.mp hnd).1 (List.mem_map.mpr ⟨p, hp, he⟩)
      simp only [List.map_cons, List.lookup_cons, beq_eq_false_iff_ne.mpr hne]
      exact ih (List.nodup_cons.mp hnd).2 hp

/-- With pairwise-distinct parameter names, a categorical parameter name
never occurs among the constant-config entries. -/
theorem lookup_constant_config_of_categorical {params : List HyperParameter}
    (hnd : (params.map (fun q => q.name)).Nodup) {nm : String}
    (hnm : nm ∈ (params.filter (fun p => p.type == HPType.categorical)).map
      (fun p => p.name)) :
    List.lookup nm ((params.filter (fun p => p.type == HPType.constant)).map
      (fun p => (p.name, p.value))) = none := by
  rw [List.lookup_eq_none_iff]
  intro pr hpr
  simp only [List.mem_map] at hpr hnm
  obtain ⟨q, hq, rfl⟩ := hpr
  obtain ⟨p, hp, rfl⟩ := hnm
  have hptype : p.type = HPType.categorical := by
    have := (List.mem_filter.mp hp).2; simpa using this
  have hqtype : q.type = HPType.constant := by
    have := (List.mem_filter.mp hq).2; simpa using this
  have hpq : p ≠ q := fun he => by rw [he, hqtype] at hptype; cases hptype
  have hnames : p.name ≠ q.name :=
    fun he => hpq (List.inj_on_of_nodup_map hnd (List.mem_filter.mp hp).1
      (List.mem_filter.mp hq).1 he)
  simpa using hnames

theorem lookup_cons_of_ne {a k : String} {v : Value} {l : Config} (h : a ≠ k) :
    List.lookup a ((k, v) :: l) = List.lookup a l := by
  rw [List.lookup_cons]
  simp [beq_eq_false_iff_ne.mpr h]

theorem projCanon_cons_some {nm : String} {names : List String} {c : Config} {v : Value}
    (h : List.lookup nm c = some v) :
    projCanon (nm :: names) c = list_to_tuple v :: projCanon names c := by
  simp [projCanon, List.filterMap_cons, h]

theorem projCanon_cons_none {nm : String} {names : List String} {c : Config}
    (h : List.lookup nm c = none) :
    projCanon (nm :: names) c = projCanon names c := by
  simp [projCanon, List.filterMap_cons, h]

theorem projCanon_congr {names : List String} {c₁ c₂ : Config}
    (h : ∀ nm ∈ names, List.lookup nm c₁ = List.lookup nm c₂) :
    projCanon names c₁ = projCanon names c₂ :=
  List.filterMap_congr (fun nm hnm => by rw [h nm hnm])

/-- Recovering the chosen grid point from the suggested config: projecting
the zipped categorical entries back through canonicalization is the
identity on hashable grid points. -/
theorem projCanon_zipWith {discrete : List HyperParameter} {t : List Value}
    (hnd : (discrete.map (fun p => p.name)).Nodup)
    (hlen : t.length = discrete.length)
    (hhash : t.all Value.hashable = true) :
    projCanon (discrete.map (fun p => p.name))
      (List.zipWith (fun p v => (p.name, tuple_to_list v)) discrete t) = t := by
  induction discrete generalizing t with
  | nil =>
    cases t with
    | nil => rfl
    | cons v vt => simp at hlen
  | cons p ds ih =>
    cases t with
    | nil => simp at hlen
    | cons v vt =>
      have hv : v.hashable = true := by
        simp only [List.all_cons, Bool.and_eq_true] at hhash; exact hhash.1
      have hvt : vt.all Value.hashable = true := by
        simp only [List.all_cons, Bool.and_eq_true] at hhash; exact hhash.2
      have hnd' : (ds.map (fun p => p.name)).Nodup := (List.nodup_cons.mp hnd).2
      have hlen' : vt.length = ds.length := by simpa using hlen
      have hhead : List.lookup p.name ((p.name, tuple_to_list v) ::
          List.zipWith (fun q w => (q.name, tuple_to_list w)) ds vt)
          = some (tuple_to_list v) := by
        rw [List.lookup_cons]
        simp
      rw [List.map_cons, List.zipWith_cons_cons, projCanon_cons_some hhead,
        list_to_tuple_tuple_to_list v hv]
      congr 1
      have hside : ∀ nm ∈ List.map (fun q => q.name) ds,
          List.lookup nm ((p.name, tuple_to_list v) ::
            List.zipWith (fun q w => (q.name, tuple_to_list w)) ds vt)
          = List.lookup nm (List.zipWith (fun q w => (q.name, tuple_to_list w)) ds vt) := by
        intro nm hnm
        have hne : nm ≠ p.name := by
          intro he
          subst he
          exact (List.nodup_cons.mp hnd).1 hnm
        exact lookup_cons_of_ne hne
      rw [projCanon_congr hside]
      exact ih hnd' hlen' hvt

/-- Recovering the chosen grid point from the full suggested config,
constant entries included. -/
theorem projCanon_mkOutputConfig {discrete : List HyperParameter} {cc : Config}
    {t : List Value}
    (hnd : (discrete.map (fun p => p.name)).Nodup)
    (hcc : ∀ nm ∈ discrete.map (fun p => p.name), List.lookup nm cc = none)
    (hlen : t.length = discrete.length)
    (hhash : t.all Value.hashable = true) :
    projCanon (discrete.map (fun p => p.name)) (mkOutputConfig discrete cc t) = t := by
  unfold mkOutputConfig projCanon
  have hcong : ∀ nm ∈ discrete.map (fun p => p.name),
      (List.lookup nm (cc ++ List.zipWith (fun p v => (p.name, tuple_to_list v)) discrete t)).map
        list_to_tuple
      = (List.lookup nm (List.zipWith (fun p v => (p.name, tuple_to_list v)) discrete t)).map
        list_to_tuple := by
    intro nm hnm
    rw [lookup_append_of_none (hcc nm hnm)]
  rw [List.filterMap_congr hcong]
  exact projCanon_zipWith hnd hlen hhash

/-! ### Characterization of the two entry points on the non-error path -/

theorem grid_search_next_runs_ok {runs : List SweepRun} {params : List HyperParameter}
    (validate : Bool) (n : Nat) (randomize_order : Bool)
    (shuffle : List (List Value) → List (List Value))
    (hfind : params.find? disallowedType = none)
    (huni : (universeCanon (params.filter (fun p => p.type == HPType.categorical))).any
      (fun t => !t.all Value.hashable) = false)
    (hseen : (seenCanon ((params.filter (fun p => p.type == HPType.categorical)).map
      (fun p => p.name)) runs).any (fun t => !t.all Value.hashable) = false) :
    grid_search_next_runs runs ⟨some "grid", some params⟩ validate n randomize_order shuffle
    = .ok
      (let discrete := params.filter (fun p => p.type == HPType.categorical)
       let cc : Config := (params.filter (fun p => p.type == HPType.constant)).map
         (fun p => (p.name, p.value))
       let remaining := remainingCanon discrete (discrete.map (fun p => p.name)) runs
       let remaining' := if randomize_order then shuffle remaining else remaining
       let retval := (remaining'.take (min n remaining.length)).map
         (fun t => some (SweepRun.mk (mkOutputConfig discrete cc t)))
       if remaining.length < n then retval ++ [none] else retval) := by
  unfold grid_search_next_runs
  simp only [SweepConfigOf, ite_self, bne_self_eq_false, Bool.false_eq_true, if_false,
    hfind, huni, hseen]

theorem grid_search_next_run_ok {runsL : List Run} {params : List HyperParameter}
    {m : Option String} (randomize_order : Bool)
    (shuffle : List (List Value) → List (List Value))
    {seenList : List (List Value)}
    (hfind : params.find? disallowedType = none)
    (huni : (listProd ((params.filter (fun p => p.type == HPType.categorical)).map
      (fun p => p.values))).any (fun t => !t.all Value.hashable) = false)
    (hseen : seenLegacy ((params.filter (fun p => p.type == HPType.categorical)).map
      (fun p => p.name)) runsL = .ok seenList)
    (hseenh : seenList.any (fun t => !t.all Value.hashable) = false) :
    grid_search_next_run runsL ⟨m, some params⟩ randomize_order shuffle
    = .ok
      (let discrete := params.filter (fun p => p.type == HPType.categorical)
       let remaining := remainingLegacy discrete seenList
       let remaining' := if randomize_order then shuffle remaining else remaining
       match remaining' with
       | [] => none
       | t :: _ => some (Run.mk ((discrete.map (fun p => p.name)).zip t))) := by
  unfold grid_search_next_run
  simp only [SweepConfigOf, hfind, huni, hseen, hseenh, Bool.false_eq_true, if_false]
  split <;> rfl

theorem grid_search_next_runs_ok_inv {runs : List SweepRun} {params : List HyperParameter}
    {validate : Bool} {n : Nat} {randomize_order : Bool}
    {shuffle : List (List Value) → List (List Value)} {retval : List (Option SweepRun)}
    (hok : grid_search_next_runs runs ⟨some "grid", some params⟩ validate n randomize_order
      shuffle = .ok retval) :
    params.find? disallowedType = none ∧
    (universeCanon (params.filter (fun p => p.type == HPType.categorical))).any
      (fun t => !t.all Value.hashable) = false ∧
    (seenCanon ((params.filter (fun p => p.type == HPType.categorical)).map
      (fun p => p.name)) runs).any (fun t => !t.all Value.hashable) = false := by
  unfold grid_search_next_runs at hok
  simp only [SweepConfigOf, ite_self, bne_self_eq_false, Bool.false_eq_true, if_false] at hok
  cases hfind : params.find? disallowedType with
  | some p =>
    rw [hfind] at hok
    exact Except.noConfusion hok
  | none =>
    rw [hfind] at hok
    refine ⟨rfl, ?_, ?_⟩
    · cases h1 : (universeCanon (params.filter (fun p => p.type == HPType.categorical))).any
        (fun t => !t.all Value.hashable) with
      | true => rw [h1] at hok; simp at hok
      | false => rfl
    · cases h1 : (universeCanon (params.filter (fun p => p.type == HPType.categorical))).any
        (fun t => !t.all Value.hashable) with
      | true => rw [h1] at hok; simp at hok
      | false =>
        rw [h1] at hok
        cases h2 : (seenCanon ((params.filter (fun p => p.type == HPType.categorical)).map
          (fun p => p.name)) runs).any (fun t => !t.all Value.hashable) with
        | true => rw [h2] at hok; simp at hok
        | false => rfl

/-! ### Small helper facts -/

theorem find?_disallowed_eq_none {params : List HyperParameter}
    (hall : ∀ p ∈ params, p.type = HPType.categorical ∨ p.type = HPType.constant) :
    params.find? disallowedType = none :=
  List.find?_eq_none.mpr (fun p hp => by
    rcases hall p hp with h | h <;> simp [disallowedType, h])

theorem length_filterMap_lt {α β : Type} {f : α → Option β} {l : List α} {a : α}
    (ha : a ∈ l) (hf : f a = none) : (l.filterMap f).length < l.length := by
  induction l with
  | nil => cases ha
  | cons x xs ih =>
    rcases List.mem_cons.mp ha with rfl | ha
    · rw [List.filterMap_cons, hf]
      exact Nat.lt_succ_of_le (List.length_filterMap_le f xs)
    · rw [List.filterMap_cons]
      cases f x with
      | none => exact Nat.lt_succ_of_lt (ih ha)
      | some b => simpa using Nat.succ_lt_succ (ih ha)

theorem mem_universeCanon_length {discrete : List HyperParameter} {t : List Value}
    (ht : t ∈ universeCanon discrete) : t.length = discrete.length := by
  have h := length_eq_of_mem_listProd ht
  simpa using h

theorem mem_universeCanon_all_hashable {discrete : List HyperParameter} {t : List Value}
    (huni : (universeCanon discrete).any (fun t => !t.all Value.hashable) = false)
    (ht : t ∈ universeCanon discrete) : t.all Value.hashable = true := by
  rw [List.any_eq_false] at huni
  have := huni t ht
  simpa using this

theorem mem_remainingCanon {discrete : List HyperParameter} {names : List String}
    {runs : List SweepRun} {t : List Value}
    (ht : t ∈ remainingCanon discrete names runs) :
    t ∈ universeCanon discrete ∧ t ∉ seenCanon names runs := by
  unfold remainingCanon at ht
  have h := List.mem_filter.mp ht
  refine ⟨List.mem_dedup.mp h.1, ?_⟩
  have h2 := of_decide_eq_true h.2
  simpa [List.mem_dedup] using h2

/-- Every suggested run of the non-error path arises from a remaining grid
point. -/
theorem mem_retval_structure {runs : List SweepRun} {params : List HyperParameter}
    {validate : Bool} {n : Nat} {randomize_order : Bool}
    {shuffle : List (List Value) → List (List Value)} {retval : List (Option SweepRun)}
    (hperm : ∀ l, (shuffle l).Perm l)
    (hok : grid_search_next_runs runs ⟨some "grid", some params⟩ validate n randomize_order
      shuffle = .ok retval)
    {s : SweepRun} (hs : some s ∈ retval) :
    ∃ t ∈ remainingCanon (params.filter (fun p => p.type == HPType.categorical))
        ((params.filter (fun p => p.type == HPType.categorical)).map (fun p => p.name)) runs,
      s = SweepRun.mk (mkOutputConfig (params.filter (fun p => p.type == HPType.categorical))
        ((params.filter (fun p => p.type == HPType.constant)).map (fun p => (p.name, p.value)))
        t) := by
  obtain ⟨hfind, huni, hseen⟩ := grid_search_next_runs_ok_inv hok
  rw [grid_search_next_runs_ok validate n randomize_order shuffle hfind huni hseen] at hok
  simp only [Except.ok.injEq] at hok
  subst hok
  have hmem : some s ∈ (((if randomize_order then
      shuffle (remainingCanon (params.filter (fun p => p.type == HPType.categorical))
        ((params.filter (fun p => p.type == HPType.categorical)).map (fun p => p.name)) runs)
    else
      remainingCanon (params.filter (fun p => p.type == HPType.categorical))
        ((params.filter (fun p => p.type == HPType.categorical)).map (fun p => p.name))
        runs)).take (min n (remainingCanon (params.filter (fun p => p.type == HPType.categorical))
          ((params.filter (fun p => p.type == HPType.categorical)).map (fun p => p.name))
          runs).length)).map
      (fun t => some (SweepRun.mk (mkOutputConfig
        (params.filter (fun p => p.type == HPType.categorical))
        ((params.filter (fun p => p.type == HPType.constant)).map (fun p => (p.name, p.value)))
        t))) := by
    rcases hd : decide ((remainingCanon (params.filter (fun p => p.type == HPType.categorical))
        ((params.filter (fun p => p.type == HPType.categorical)).map (fun p => p.name))
        runs).length < n) with _ | _
    · have hlt := of_decide_eq_false hd
      simpa [if_neg hlt] using hs
    · have hlt := of_decide_eq_true hd
      rw [if_pos hlt] at hs
      rcases List.mem_append.mp hs with h | h
      · exact h
      · simp at h
  obtain ⟨t, hmem2, heq⟩ := List.mem_map.mp hmem
  have ht : t ∈ remainingCanon (params.filter (fun p => p.type == HPType.categorical))
      ((params.filter (fun p => p.type == HPType.categorical)).map (fun p => p.name)) runs := by
    have h1 := List.mem_of_mem_take hmem2
    cases randomize_order with
    | true =>
      rw [if_pos rfl] at h1
      exact (hperm _).mem_iff.mp h1
    | false => simpa using h1
  refine ⟨t, ht, ?_⟩
  have := Option.some.inj heq
  exact this.symm

/-! ### Claims -/

/-- C5: for every search space containing at least one parameter whose kind
is neither Categorical nor Constant, both grid_search_next_runs and
grid_search_next_run fail with the configuration error naming the (first)
offending parameter, and produce no suggestions. -/
theorem C5_rejection (runs : List SweepRun) (runsL : List Run)
    (params : List HyperParameter) (validate : Bool) (n : Nat)
    (randomize_order : Bool) (shuffle : List (List Value) → List (List Value))
    (hbad : ∃ p ∈ params, p.type ≠ HPType.categorical ∧ p.type ≠ HPType.constant) :
    ∃ q ∈ params, (q.type ≠ HPType.categorical ∧ q.type ≠ HPType.constant) ∧
      grid_search_next_runs runs ⟨some "grid", some params⟩ validate n randomize_order shuffle
        = .error (.valueError (disallowedMsg q.name)) ∧
      grid_search_next_run runsL ⟨some "grid", some params⟩ randomize_order shuffle
        = .error (.valueError (disallowedMsg q.name)) := by
  cases hq : params.find? disallowedType with
  | none =>
    obtain ⟨p, hp, h1, h2⟩ := hbad
    have h := List.find?_eq_none.mp hq p hp
    simp [disallowedType, h1, h2] at h
  | some q =>
    refine ⟨q, List.mem_of_find?_eq_some hq, ?_, ?_, ?_⟩
    · have h := List.find?_some hq
      simp only [disallowedType, Bool.and_eq_true, bne_iff_ne] at h
      exact h
    · unfold grid_search_next_runs
      simp [SweepConfigOf, ite_self, hq]
    · unfold grid_search_next_run
      simp [SweepConfigOf, hq]

/-- Witness for C5 at a concrete space with a min/max (int_uniform)
parameter. -/
theorem C5_rejection_witness :
    ∃ q ∈ [HyperParameter.mk "v1" HPType.categorical [Value.vint 1] Value.vnone,
           HyperParameter.mk "v2" HPType.int_uniform [] Value.vnone],
      (q.type ≠ HPType.categorical ∧ q.type ≠ HPType.constant) ∧
      grid_search_next_runs [] ⟨some "grid",
        some [HyperParameter.mk "v1" HPType.categorical [Value.vint 1] Value.vnone,
              HyperParameter.mk "v2" HPType.int_uniform [] Value.vnone]⟩ false 1 false id
        = .error (.valueError (disallowedMsg q.name)) ∧
      grid_search_next_run [] ⟨some "grid",
        some [HyperParameter.mk "v1" HPType.categorical [Value.vint 1] Value.vnone,
              HyperParameter.mk "v2" HPType.int_uniform [] Value.vnone]⟩ false id
        = .error (.valueError (disallowedMsg q.name)) :=
  C5_rejection [] [] _ false 1 false id
    ⟨HyperParameter.mk "v2" HPType.int_uniform [] Value.vnone, by decide, by decide, by decide⟩

/-- C6 is false on the code: the legacy grid_search_next_run performs no
method check at all, so a present-but-mismatched method field ("random"
instead of "grid") does not fail with a configuration error there; the call
succeeds and produces a suggestion. -/
theorem C6_method_check_cex :
    grid_search_next_run []
      ⟨some "random", some [HyperParameter.mk "a" HPType.categorical [Value.vint 1] Value.vnone]⟩
      false id
    = .ok (some (Run.mk [("a", Value.vint 1)])) := by rfl

/-- C6 amended: the method check exists only in grid_search_next_runs,
where a present non-grid method fails with the ValueError and an absent
method field fails with a KeyError (not success); grid_search_next_run
ignores the method field entirely. -/
theorem C6_method_check_amended (runs : List SweepRun) (runsL : List Run)
    (ps : Option (List HyperParameter)) (validate : Bool) (n : Nat)
    (randomize_order : Bool) (shuffle : List (List Value) → List (List Value)) :
    (∀ m : String, m ≠ "grid" →
      grid_search_next_runs runs ⟨some m, ps⟩ validate n randomize_order shuffle
        = .error (.valueError invalidMethodMsg)) ∧
    grid_search_next_runs runs ⟨none, ps⟩ validate n randomize_order shuffle
      = .error (.keyError "method") ∧
    (∀ m₁ m₂ : Option String,
      grid_search_next_run runsL ⟨m₁, ps⟩ randomize_order shuffle
        = grid_search_next_run runsL ⟨m₂, ps⟩ randomize_order shuffle) := by
  refine ⟨?_, ?_, ?_⟩
  · intro m hm
    unfold grid_search_next_runs
    simp [SweepConfigOf, ite_self, bne_iff_ne, hm]
  · unfold grid_search_next_runs
    simp [SweepConfigOf, ite_self]
  · intro m₁ m₂
    rfl

/-- Witness for C6 amended at concrete method values. -/
theorem C6_method_check_witness :
    grid_search_next_runs [] ⟨some "random", some []⟩ false 1 false id
      = .error (.valueError invalidMethodMsg) ∧
    grid_search_next_runs [] ⟨none, some []⟩ false 1 false id
      = .error (.keyError "method") ∧
    grid_search_next_run [] ⟨some "random", some []⟩ false id
      = grid_search_next_run [] ⟨some "bayes", some []⟩ false id :=
  ⟨(C6_method_check_amended [] [] (some []) false 1 false id).1 "random" (by decide),
   (C6_method_check_amended [] [] (some []) false 1 false id).2.1,
   (C6_method_check_amended [] [] (some []) false 1 false id).2.2 (some "random") (some "bayes")⟩

/-- C7 is false on the code: a tuple-shaped candidate value (as declared in
the repository's own test fixture, e.g. the pair (2, 3)) does not round
trip; list_to_tuple leaves the tuple unchanged and tuple_to_list then turns
it into a list, so the caller receives a list where it supplied a tuple. -/
theorem C7_roundtrip_cex :
    tuple_to_list (list_to_tuple (Value.vtuple (.cons (Value.vint 2)
      (.cons (Value.vint 3) .nil))))
    ≠ Value.vtuple (.cons (Value.vint 2) (.cons (Value.vint 3) .nil)) := by decide

/-- C7 amended: for candidate values built from scalars and list-shaped
sequences only, canonicalization is exactly reversed at output
(tuple_to_list after list_to_tuple is the identity) and the canonical form
is hashable, fit for the set operations; a value with a tuple-shaped part
is instead handed back in list shape. -/
theorem C7_roundtrip_amended (v : Value) (h : v.listy = true) :
    tuple_to_list (list_to_tuple v) = v ∧ (list_to_tuple v).hashable = true :=
  ⟨tuple_to_list_list_to_tuple v h, hashable_list_to_tuple v h⟩

/-- Witness for C7 amended at a concrete nested list value. -/
theorem C7_roundtrip_witness :
    tuple_to_list (list_to_tuple (Value.vlist (.cons (Value.vint 1)
      (.cons (Value.vlist .nil) .nil))))
      = Value.vlist (.cons (Value.vint 1) (.cons (Value.vlist .nil) .nil)) ∧
    (list_to_tuple (Value.vlist (.cons (Value.vint 1)
      (.cons (Value.vlist .nil) .nil)))).hashable = true :=
  C7_roundtrip_amended _ (by decide)

/-- C4 is false on the code: the legacy grid_search_next_run drops constant
parameters; with the space a ∈ {1} categorical and c = 5 constant it
suggests a config binding a only, with no entry for c at all. -/
theorem C4_constant_passthrough_cex :
    grid_search_next_run []
      ⟨some "grid", some [HyperParameter.mk "a" HPType.categorical [Value.vint 1] Value.vnone,
                          HyperParameter.mk "c" HPType.constant [] (Value.vint 5)]⟩
      false id
      = .ok (some (Run.mk [("a", Value.vint 1)])) ∧
    List.lookup "c" ([("a", Value.vint 1)] : Config) = none := ⟨rfl, rfl⟩

/-- C4 amended: every suggested run of grid_search_next_runs carries every
constant parameter's fixed value unchanged in its output config; the legacy
grid_search_next_run does not include constant parameters. -/
theorem C4_constant_passthrough_amended {runs : List SweepRun}
    {params : List HyperParameter} {validate : Bool} {n : Nat}
    {randomize_order : Bool} {shuffle : List (List Value) → List (List Value)}
    {retval : List (Option SweepRun)}
    (hperm : ∀ l, (shuffle l).Perm l)
    (hnd : (params.map (fun p => p.name)).Nodup)
    (hok : grid_search_next_runs runs ⟨some "grid", some params⟩ validate n
      randomize_order shuffle = .ok retval)
    {s : SweepRun} (hs : some s ∈ retval)
    {p : HyperParameter} (hp : p ∈ params) (hconst : p.type = HPType.constant) :
    List.lookup p.name s.config = some p.value := by
  obtain ⟨t, ht, rfl⟩ := mem_retval_structure hperm hok hs
  show List.lookup p.name (mkOutputConfig _ _ t) = some p.value
  unfold mkOutputConfig
  apply lookup_append_of_some
  apply lookup_map_name
  · exact List.Nodup.sublist
      (List.Sublist.map (fun q => q.name) (List.filter_sublist params)) hnd
  · exact List.mem_filter.mpr ⟨hp, by simp [hconst]⟩

/-- Witness for C4 amended at a concrete space with one categorical and one
constant parameter. -/
theorem C4_constant_passthrough_witness :
    List.lookup "c" (SweepRun.mk [("c", Value.vint 5), ("a", Value.vint 1)]).config
      = some (Value.vint 5) :=
  C4_constant_passthrough_amended (fun l => List.Perm.refl l)
    (by decide)
    (show grid_search_next_runs []
      ⟨some "grid", some [HyperParameter.mk "a" HPType.categorical [Value.vint 1] Value.vnone,
                          HyperParameter.mk "c" HPType.constant [] (Value.vint 5)]⟩
      false 1 false id
      = .ok [some (SweepRun.mk [("c", Value.vint 5), ("a", Value.vint 1)])] from rfl)
    (by decide)
    (show HyperParameter.mk "c" HPType.constant [] (Value.vint 5)
      ∈ [HyperParameter.mk "a" HPType.categorical [Value.vint 1] Value.vnone,
         HyperParameter.mk "c" HPType.constant [] (Value.vint 5)] by decide)
    rfl

/-- C10: when every parameter is Constant the Cartesian universe is the
single empty assignment: with an empty history grid_search_next_runs(n=1)
returns exactly one run whose config is the constant parameters only, and
with any non-empty history every run projects to the empty tuple, so the
result is the exhaustion sentinel. -/
theorem C10_all_constant {params : List HyperParameter} {validate : Bool}
    {randomize_order : Bool} {shuffle : List (List Value) → List (List Value)}
    (hperm : ∀ l, (shuffle l).Perm l)
    (hall : ∀ p ∈ params, p.type = HPType.constant) :
    grid_search_next_runs [] ⟨some "grid", some params⟩ validate 1 randomize_order shuffle
      = .ok [some (SweepRun.mk (params.map (fun p => (p.name, p.value))))] ∧
    ∀ runs : List SweepRun, runs ≠ [] →
      grid_search_next_runs runs ⟨some "grid", some params⟩ validate 1 randomize_order shuffle
      = .ok [none] := by
  have hDnil : params.filter (fun p => p.type == HPType.categorical) = [] :=
    List.filter_eq_nil_iff.mpr (fun p hp => by simp [hall p hp])
  have hCall : params.filter (fun p => p.type == HPType.constant) = params :=
    List.filter_eq_self.mpr (fun p hp => by simp [hall p hp])
  have hfind : params.find? disallowedType = none :=
    find?_disallowed_eq_none (fun p hp => Or.inr (hall p hp))
  have huni : (universeCanon (params.filter (fun p => p.type == HPType.categorical))).any
      (fun t => !t.all Value.hashable) = false := by
    rw [hDnil]; rfl
  constructor
  · have hseen : (seenCanon ((params.filter (fun p => p.type == HPType.categorical)).map
        (fun p => p.name)) ([] : List SweepRun)).any (fun t => !t.all Value.hashable)
        = false := rfl
    rw [grid_search_next_runs_ok validate 1 randomize_order shuffle hfind huni hseen]
    simp only [hDnil, hCall, List.map_nil]
    rw [show remainingCanon [] [] ([] : List SweepRun) = [[]] from rfl]
    have hsh : (if randomize_order then shuffle [[]] else [[]]) = [[]] := by
      cases randomize_order with
      | false => rfl
      | true => simpa using List.perm_singleton.mp (hperm [[]])
    rw [hsh]
    simp [mkOutputConfig]
  · intro runs hne
    cases runs with
    | nil => exact absurd rfl hne
    | cons r rest =>
      have hseen : (seenCanon ((params.filter (fun p => p.type == HPType.categorical)).map
          (fun p => p.name)) (r :: rest)).any (fun t => !t.all Value.hashable) = false := by
        rw [hDnil]
        simp [seenCanon, projCanon, List.any_map]
      rw [grid_search_next_runs_ok validate 1 randomize_order shuffle hfind huni hseen]
      simp only [hDnil, hCall, List.map_nil]
      have hrem : remainingCanon [] [] (r :: rest) = [] := by
        simp [remainingCanon, universeCanon, listProd, seenCanon, projCanon]
      rw [hrem]
      have hsh : (if randomize_order then shuffle [] else []) = [] := by
        cases randomize_order with
        | false => rfl
        | true => simpa using List.perm_nil.mp (hperm [])
      rw [hsh]
      rfl

/-- Witness for C10 at a concrete all-constant space. -/
theorem C10_all_constant_witness :
    grid_search_next_runs [] ⟨some "grid",
        some [HyperParameter.mk "c" HPType.constant [] (Value.vint 5)]⟩ false 1 false id
      = .ok [some (SweepRun.mk [("c", Value.vint 5)])] ∧
    ∀ runs : List SweepRun, runs ≠ [] →
      grid_search_next_runs runs ⟨some "grid",
        some [HyperParameter.mk "c" HPType.constant [] (Value.vint 5)]⟩ false 1 false id
      = .ok [none] :=
  C10_all_constant (fun l => List.Perm.refl l) (by decide)

/-- The shape of the materializer's output: real suggestions first, then
one sentinel exactly when fewer than n could be produced. -/
theorem retval_shape {α β : Type} (rem rem' : List α) (n : Nat) (f : α → β)
    (hlen : rem'.length = rem.length) :
    ∃ l : List β,
      (if rem.length < n
        then ((rem'.take (min n rem.length)).map (fun t => some (f t))) ++ [none]
        else (rem'.take (min n rem.length)).map (fun t => some (f t)))
      = l.map some ++ (if l.length < n then [none] else []) ∧
      l.length = min n rem.length := by
  have h1 : ((rem'.take (min n rem.length)).map f).length = min n rem.length := by
    rw [List.length_map, List.length_take, hlen]
    omega
  refine ⟨(rem'.take (min n rem.length)).map f, ?_, h1⟩
  rw [List.map_map, h1]
  by_cases hlt : rem.length < n
  · rw [if_pos hlt, if_pos (by omega)]
    rfl
  · rw [if_neg hlt, if_neg (by omega), List.append_nil]
    rfl

/-- C3: grid exhaustion is signaled, never raised.  On the non-error path
grid_search_next_runs returns min(n, remaining) real suggestions followed
by exactly one sentinel none precisely when fewer than n suggestions could
be produced (so a fully exhausted grid yields [none]); and the legacy
grid_search_next_run returns none, not an error, when no configuration
remains. -/
theorem C3_exhaustion_sentinel :
    (∀ (runs : List SweepRun) (params : List HyperParameter) (validate : Bool) (n : Nat)
       (randomize_order : Bool) (shuffle : List (List Value) → List (List Value))
       (retval : List (Option SweepRun)),
       (∀ l, (shuffle l).Perm l) →
       grid_search_next_runs runs ⟨some "grid", some params⟩ validate n randomize_order shuffle
         = .ok retval →
       ∃ l : List SweepRun,
         retval = l.map some ++ (if l.length < n then [none] else []) ∧
         l.length = min n (remainingCanon (params.filter (fun p => p.type == HPType.categorical))
           ((params.filter (fun p => p.type == HPType.categorical)).map (fun p => p.name))
           runs).length) ∧
    (∀ (runsL : List Run) (params : List HyperParameter) (m : Option String)
       (randomize_order : Bool) (shuffle : List (List Value) → List (List Value))
       (seenList : List (List Value)),
       (∀ l, (shuffle l).Perm l) →
       params.find? disallowedType = none →
       (listProd ((params.filter (fun p => p.type == HPType.categorical)).map
         (fun p => p.values))).any (fun t => !t.all Value.hashable) = false →
       seenLegacy ((params.filter (fun p => p.type == HPType.categorical)).map
         (fun p => p.name)) runsL = .ok seenList →
       seenList.any (fun t => !t.all Value.hashable) = false →
       remainingLegacy (params.filter (fun p => p.type == HPType.categorical)) seenList = [] →
       grid_search_next_run runsL ⟨m, some params⟩ randomize_order shuffle = .ok none) := by
  constructor
  · intro runs params validate n randomize_order shuffle retval hperm hok
    obtain ⟨hfind, huni, hseen⟩ := grid_search_next_runs_ok_inv hok
    rw [grid_search_next_runs_ok validate n randomize_order shuffle hfind huni hseen] at hok
    simp only [Except.ok.injEq] at hok
    subst hok
    apply retval_shape
    cases randomize_order with
    | false => rfl
    | true => simpa using (hperm _).length_eq
  · intro runsL params m randomize_order shuffle seenList hperm hfind huni hseen hseenh hrem
    rw [grid_search_next_run_ok randomize_order shuffle hfind huni hseen hseenh]
    simp only [hrem]
    have hsh : (if randomize_order then shuffle [] else []) = ([] : List (List Value)) := by
      cases randomize_order with
      | false => rfl
      | true => simpa using List.perm_nil.mp (hperm [])
    rw [hsh]

/-- Witness for C3 at a concrete one-parameter space: requesting two runs
from a one-point grid yields the run and one sentinel, and the legacy call
on the fully covered grid yields none. -/
theorem C3_exhaustion_sentinel_witness :
    (∃ l : List SweepRun,
       ([some (SweepRun.mk [("a", Value.vint 1)]), none] : List (Option SweepRun))
         = l.map some ++ (if l.length < 2 then [none] else []) ∧
       l.length = min 2 (remainingCanon
         ([HyperParameter.mk "a" HPType.categorical [Value.vint 1] Value.vnone].filter
           (fun p => p.type == HPType.categorical))
         (([HyperParameter.mk "a" HPType.categorical [Value.vint 1] Value.vnone].filter
           (fun p => p.type == HPType.categorical)).map (fun p => p.name))
         []).length) ∧
    grid_search_next_run [Run.mk [("a", Value.vint 1)]]
      ⟨some "grid", some [HyperParameter.mk "a" HPType.categorical [Value.vint 1] Value.vnone]⟩
      false id = .ok none :=
  ⟨C3_exhaustion_sentinel.1 [] [HyperParameter.mk "a" HPType.categorical [Value.vint 1] Value.vnone]
      false 2 false id _ (fun l => List.Perm.refl l) rfl,
   C3_exhaustion_sentinel.2 [Run.mk [("a", Value.vint 1)]]
      [HyperParameter.mk "a" HPType.categorical [Value.vint 1] Value.vnone]
      (some "grid") false id [[Value.vint 1]] (fun l => List.Perm.refl l) rfl rfl rfl rfl rfl⟩

/-- C2: a run already in the history is never suggested again by
grid_search_next_runs — with configuration equality taken, as the code
takes it, on the canonical (list_to_tuple) forms of the projected values,
so list-shaped and tuple-shaped values that are elementwise equal
deduplicate identically. -/
theorem C2_dedup_canonical {runs : List SweepRun} {params : List HyperParameter}
    {validate : Bool} {n : Nat} {randomize_order : Bool}
    {shuffle : List (List Value) → List (List Value)} {retval : List (Option SweepRun)}
    (hperm : ∀ l, (shuffle l).Perm l)
    (hnd : (params.map (fun p => p.name)).Nodup)
    (hok : grid_search_next_runs runs ⟨some "grid", some params⟩ validate n
      randomize_order shuffle = .ok retval)
    {r : SweepRun} (hr : r ∈ runs) {s : SweepRun} (hs : some s ∈ retval) :
    projCanon ((params.filter (fun p => p.type == HPType.categorical)).map (fun p => p.name))
        s.config
    ≠ projCanon ((params.filter (fun p => p.type == HPType.categorical)).map (fun p => p.name))
        r.config := by
  obtain ⟨hfind, huni, hseen⟩ := grid_search_next_runs_ok_inv hok
  obtain ⟨t, ht, rfl⟩ := mem_retval_structure hperm hok hs
  obtain ⟨htu, htn⟩ := mem_remainingCanon ht
  have hndD : ((params.filter (fun p => p.type == HPType.categorical)).map
      (fun p => p.name)).Nodup :=
    List.Nodup.sublist (List.Sublist.map (fun p => p.name) (List.filter_sublist params)) hnd
  have hcc : ∀ nm ∈ (params.filter (fun p => p.type == HPType.categorical)).map
      (fun p => p.name),
      List.lookup nm ((params.filter (fun p => p.type == HPType.constant)).map
        (fun p => (p.name, p.value))) = none :=
    fun nm hnm => lookup_constant_config_of_categorical hnd hnm
  have hlen : t.length = (params.filter (fun p => p.type == HPType.categorical)).length :=
    mem_universeCanon_length htu
  have hhash : t.all Value.hashable = true := mem_universeCanon_all_hashable huni htu
  have hproj : projCanon ((params.filter (fun p => p.type == HPType.categorical)).map
      (fun p => p.name))
      ((SweepRun.mk (mkOutputConfig (params.filter (fun p => p.type == HPType.categorical))
        ((params.filter (fun p => p.type == HPType.constant)).map (fun p => (p.name, p.value)))
        t)).config) = t :=
    projCanon_mkOutputConfig hndD hcc hlen hhash
  rw [hproj]
  intro he
  apply htn
  rw [he]
  simp only [seenCanon]
  exact List.mem_map.mpr ⟨r, hr, rfl⟩

/-- Witness for C2: with candidates that are a list-shaped pair and a
scalar, a history run recorded with the tuple-shaped pair blocks the
list-shaped candidate, so only the scalar is suggested. -/
theorem C2_dedup_canonical_witness :
    projCanon [("a" : String)] (SweepRun.mk [("a", Value.vint 7)]).config
    ≠ projCanon [("a" : String)]
        (SweepRun.mk [("a", Value.vtuple (.cons (Value.vint 1)
          (.cons (Value.vint 2) .nil)))]).config :=
  C2_dedup_canonical (fun l => List.Perm.refl l) (by decide)
    (show grid_search_next_runs
        [SweepRun.mk [("a", Value.vtuple (.cons (Value.vint 1) (.cons (Value.vint 2) .nil)))]]
        ⟨some "grid", some [HyperParameter.mk "a" HPType.categorical
          [Value.vlist (.cons (Value.vint 1) (.cons (Value.vint 2) .nil)), Value.vint 7]
          Value.vnone]⟩
        false 2 false id
      = .ok [some (SweepRun.mk [("a", Value.vint 7)]), none] from rfl)
    (by decide) (by decide)

theorem forall₂_mem_left {α β : Type} {R : α → β → Prop} {t : List α} {ls : List β}
    (h : List.Forall₂ R t ls) {v : α} (hv : v ∈ t) : ∃ l ∈ ls, R v l := by
  induction h with
  | nil => cases hv
  | cons hR hF ih =>
    rcases List.mem_cons.mp hv with rfl | hv
    · exact ⟨_, by simp, hR⟩
    · obtain ⟨l, hl, hRl⟩ := ih hv
      exact ⟨l, by simp [hl], hRl⟩

/-- C1: for a space of categorical and constant parameters with an empty
history and pairwise-distinct canonical candidates, requesting
n = ∏(candidate counts) yields exactly n distinct runs, no sentinel, whose
canonical categorical assignments are exactly the full Cartesian product
of the canonicalized candidate values — no duplicates, no omissions. -/
theorem C1_grid_completeness {params : List HyperParameter} {validate : Bool}
    {shuffle : List (List Value) → List (List Value)}
    (hnd : (params.map (fun p => p.name)).Nodup)
    (hall : ∀ p ∈ params, p.type = HPType.categorical ∨ p.type = HPType.constant)
    (hvals : ∀ p ∈ params, p.type = HPType.categorical → (canonValues p).Nodup)
    (hhash : ∀ p ∈ params, p.type = HPType.categorical →
      ∀ v ∈ p.values, (list_to_tuple v).hashable = true) :
    ∃ l : List SweepRun,
      grid_search_next_runs [] ⟨some "grid", some params⟩ validate
        (((params.filter (fun p => p.type == HPType.categorical)).map
          (fun p => p.values.length)).prod) false shuffle
        = .ok (l.map some) ∧
      l.length = ((params.filter (fun p => p.type == HPType.categorical)).map
        (fun p => p.values.length)).prod ∧
      (l.map (fun s => projCanon ((params.filter (fun p => p.type == HPType.categorical)).map
        (fun p => p.name)) s.config)).Perm
        (universeCanon (params.filter (fun p => p.type == HPType.categorical))) ∧
      l.Nodup := by
  have hfind : params.find? disallowedType = none := find?_disallowed_eq_none hall
  have huniv_hash : ∀ t ∈ universeCanon (params.filter (fun p => p.type == HPType.categorical)),
      t.all Value.hashable = true := by
    intro t ht
    rw [List.all_eq_true]
    intro v hv
    obtain ⟨l, hl, hvl⟩ := forall₂_mem_left (mem_listProd.mp ht) hv
    obtain ⟨p, hp, rfl⟩ := List.mem_map.mp hl
    obtain ⟨w, hw, rfl⟩ := List.mem_map.mp hvl
    exact hhash p (List.mem_filter.mp hp).1 (by simpa using (List.mem_filter.mp hp).2) w hw
  have huni : (universeCanon (params.filter (fun p => p.type == HPType.categorical))).any
      (fun t => !t.all Value.hashable) = false :=
    List.any_eq_false.mpr (fun t ht => by simp [huniv_hash t ht])
  have hseen : (seenCanon ((params.filter (fun p => p.type == HPType.categorical)).map
      (fun p => p.name)) ([] : List SweepRun)).any (fun t => !t.all Value.hashable)
      = false := rfl
  have hU : (universeCanon (params.filter (fun p => p.type == HPType.categorical))).Nodup := by
    apply listProd_nodup
    rintro l hl
    obtain ⟨p, hp, rfl⟩ := List.mem_map.mp hl
    exact hvals p (List.mem_filter.mp hp).1 (by simpa using (List.mem_filter.mp hp).2)
  have hrem : remainingCanon (params.filter (fun p => p.type == HPType.categorical))
      ((params.filter (fun p => p.type == HPType.categorical)).map (fun p => p.name)) []
      = universeCanon (params.filter (fun p => p.type == HPType.categorical)) := by
    unfold remainingCanon seenCanon
    simp [List.dedup_eq_self.mpr hU]
  have hUlen : (universeCanon (params.filter (fun p => p.type == HPType.categorical))).length
      = ((params.filter (fun p => p.type == HPType.categorical)).map
        (fun p => p.values.length)).prod := by
    unfold universeCanon
    rw [listProd_length, List.map_map]
    congr 1
    apply List.map_congr_left
    intro p hp
    simp [canonValues]
  refine ⟨(universeCanon (params.filter (fun p => p.type == HPType.categorical))).map
    (fun t => SweepRun.mk (mkOutputConfig (params.filter (fun p => p.type == HPType.categorical))
      ((params.filter (fun p => p.type == HPType.constant)).map (fun p => (p.name, p.value)))
      t)), ?_, ?_, ?_, ?_⟩
  · rw [grid_search_next_runs_ok validate _ false shuffle hfind huni hseen]
    simp only [hrem, hUlen, Nat.min_self, lt_irrefl, if_false, Bool.false_eq_true,
      List.map_map]
    rw [← hUlen, List.take_length]
    rfl
  · rw [List.length_map, hUlen]
  · have hndD : ((params.filter (fun p => p.type == HPType.categorical)).map
        (fun p => p.name)).Nodup :=
      List.Nodup.sublist (List.Sublist.map (fun p => p.name) (List.filter_sublist params)) hnd
    have hcc : ∀ nm ∈ (params.filter (fun p => p.type == HPType.categorical)).map
        (fun p => p.name),
        List.lookup nm ((params.filter (fun p => p.type == HPType.constant)).map
          (fun p => (p.name, p.value))) = none :=
      fun nm hnm => lookup_constant_config_of_categorical hnd hnm
    rw [List.map_map]
    have hmapid : (universeCanon (params.filter (fun p => p.type == HPType.categorical))).map
        ((fun s => projCanon ((params.filter (fun p => p.type == HPType.categorical)).map
          (fun p => p.name)) s.config) ∘
         (fun t => SweepRun.mk (mkOutputConfig
           (params.filter (fun p => p.type == HPType.categorical))
           ((params.filter (fun p => p.type == HPType.constant)).map
             (fun p => (p.name, p.value))) t)))
        = (universeCanon (params.filter (fun p => p.type == HPType.categorical))).map
          (fun t => t) := by
      apply List.map_congr_left
      intro t ht
      exact projCanon_mkOutputConfig hndD hcc (mem_universeCanon_length ht) (huniv_hash t ht)
    rw [hmapid, List.map_id']
  · have hndD : ((params.filter (fun p => p.type == HPType.categorical)).map
        (fun p => p.name)).Nodup :=
      List.Nodup.sublist (List.Sublist.map (fun p => p.name) (List.filter_sublist params)) hnd
    have hcc : ∀ nm ∈ (params.filter (fun p => p.type == HPType.categorical)).map
        (fun p => p.name),
        List.lookup nm ((params.filter (fun p => p.type == HPType.constant)).map
          (fun p => (p.name, p.value))) = none :=
      fun nm hnm => lookup_constant_config_of_categorical hnd hnm
    apply List.Nodup.of_map (fun s => projCanon
      ((params.filter (fun p => p.type == HPType.categorical)).map (fun p => p.name)) s.config)
    rw [List.map_map]
    have hmapid : (universeCanon (params.filter (fun p => p.type == HPType.categorical))).map
        ((fun s => projCanon ((params.filter (fun p => p.type == HPType.categorical)).map
          (fun p => p.name)) s.config) ∘
         (fun t => SweepRun.mk (mkOutputConfig
           (params.filter (fun p => p.type == HPType.categorical))
           ((params.filter (fun p => p.type == HPType.constant)).map
             (fun p => (p.name, p.value))) t)))
        = (universeCanon (params.filter (fun p => p.type == HPType.categorical))).map
          (fun t => t) := by
      apply List.map_congr_left
      intro t ht
      exact projCanon_mkOutputConfig hndD hcc (mem_universeCanon_length ht) (huniv_hash t ht)
    rw [hmapid, List.map_id']
    exact hU

/-- Witness for C1 at the two-parameter space v1 ∈ {1,2,3}, v2 ∈ {4,5} of
the repository's test fixtures: requesting 6 runs covers all 6 pairs. -/
theorem C1_grid_completeness_witness :
    ∃ l : List SweepRun,
      grid_search_next_runs [] ⟨some "grid",
        some [HyperParameter.mk "v1" HPType.categorical
                [Value.vint 1, Value.vint 2, Value.vint 3] Value.vnone,
              HyperParameter.mk "v2" HPType.categorical
                [Value.vint 4, Value.vint 5] Value.vnone]⟩ false
        (([HyperParameter.mk "v1" HPType.categorical
             [Value.vint 1, Value.vint 2, Value.vint 3] Value.vnone,
           HyperParameter.mk "v2" HPType.categorical
             [Value.vint 4, Value.vint 5] Value.vnone].filter
            (fun p => p.type == HPType.categorical)).map (fun p => p.values.length)).prod
        false id
        = .ok (l.map some) ∧
      l.length = (([HyperParameter.mk "v1" HPType.categorical
             [Value.vint 1, Value.vint 2, Value.vint 3] Value.vnone,
           HyperParameter.mk "v2" HPType.categorical
             [Value.vint 4, Value.vint 5] Value.vnone].filter
            (fun p => p.type == HPType.categorical)).map (fun p => p.values.length)).prod ∧
      (l.map (fun s => projCanon (([HyperParameter.mk "v1" HPType.categorical
             [Value.vint 1, Value.vint 2, Value.vint 3] Value.vnone,
           HyperParameter.mk "v2" HPType.categorical
             [Value.vint 4, Value.vint 5] Value.vnone].filter
            (fun p => p.type == HPType.categorical)).map (fun p => p.name)) s.config)).Perm
        (universeCanon ([HyperParameter.mk "v1" HPType.categorical
             [Value.vint 1, Value.vint 2, Value.vint 3] Value.vnone,
           HyperParameter.mk "v2" HPType.categorical
             [Value.vint 4, Value.vint 5] Value.vnone].filter
            (fun p => p.type == HPType.categorical))) ∧
      l.Nodup :=
  C1_grid_completeness (by decide) (by decide) (by decide) (by decide)

/-- C8 is false on the code as a statement about both implementations: the
legacy grid_search_next_run indexes every categorical name unconditionally
when building its seen-set, so a history run whose config lacks the
categorical name "a" makes the request fail with KeyError instead of
succeeding. -/
theorem C8_missing_key_cex :
    grid_search_next_run [Run.mk []]
      ⟨some "grid", some [HyperParameter.mk "a" HPType.categorical
        [Value.vint 1, Value.vint 2] Value.vnone]⟩ false id
    = .error (.keyError "a") := by rfl

/-- C8 amended: in grid_search_next_runs the seen-set projection uses only
the keys present in each run's own config, so a run missing a categorical
key yields a shorter canonical tuple that collides with no universe point;
such a run is never deduplicated — removing it from the history leaves the
result unchanged — and the request behaves exactly as it would without the
run.  The legacy grid_search_next_run instead raises KeyError on such a
run. -/
theorem C8_missing_key_amended {params : List HyperParameter}
    {pre post : List SweepRun} {r : SweepRun} {validate : Bool} {n : Nat}
    {randomize_order : Bool} {shuffle : List (List Value) → List (List Value)}
    (hfind : params.find? disallowedType = none)
    (hmiss : ∃ nm ∈ (params.filter (fun p => p.type == HPType.categorical)).map
      (fun p => p.name), List.lookup nm r.config = none)
    (hproj : (projCanon ((params.filter (fun p => p.type == HPType.categorical)).map
      (fun p => p.name)) r.config).all Value.hashable = true) :
    grid_search_next_runs (pre ++ r :: post) ⟨some "grid", some params⟩ validate n
      randomize_order shuffle
    = grid_search_next_runs (pre ++ post) ⟨some "grid", some params⟩ validate n
      randomize_order shuffle
    ∧ projCanon ((params.filter (fun p => p.type == HPType.categorical)).map (fun p => p.name))
        r.config
      ∉ universeCanon (params.filter (fun p => p.type == HPType.categorical)) := by
  obtain ⟨nm0, hnm0, hlk0⟩ := hmiss
  have hprojlen : (projCanon ((params.filter (fun p => p.type == HPType.categorical)).map
      (fun p => p.name)) r.config).length
      < ((params.filter (fun p => p.type == HPType.categorical)).map (fun p => p.name)).length := by
    unfold projCanon
    exact length_filterMap_lt hnm0 (by rw [hlk0]; rfl)
  have hnotin : projCanon ((params.filter (fun p => p.type == HPType.categorical)).map
      (fun p => p.name)) r.config
      ∉ universeCanon (params.filter (fun p => p.type == HPType.categorical)) := by
    intro hmem
    have h1 := mem_universeCanon_length hmem
    rw [List.length_map] at hprojlen
    omega
  refine ⟨?_, hnotin⟩
  have hany : (seenCanon ((params.filter (fun p => p.type == HPType.categorical)).map
      (fun p => p.name)) (pre ++ r :: post)).any (fun t => !t.all Value.hashable)
      = (seenCanon ((params.filter (fun p => p.type == HPType.categorical)).map
      (fun p => p.name)) (pre ++ post)).any (fun t => !t.all Value.hashable) := by
    simp [seenCanon, List.any_append, List.any_cons, hproj]
  have hremeq : remainingCanon (params.filter (fun p => p.type == HPType.categorical))
      ((params.filter (fun p => p.type == HPType.categorical)).map (fun p => p.name))
      (pre ++ r :: post)
      = remainingCanon (params.filter (fun p => p.type == HPType.categorical))
      ((params.filter (fun p => p.type == HPType.categorical)).map (fun p => p.name))
      (pre ++ post) := by
    unfold remainingCanon
    apply List.filter_congr
    intro t ht
    have htu : t ∈ universeCanon (params.filter (fun p => p.type == HPType.categorical)) :=
      List.mem_dedup.mp ht
    have hne : t ≠ projCanon ((params.filter (fun p => p.type == HPType.categorical)).map
        (fun p => p.name)) r.config := by
      intro he
      have h1 := mem_universeCanon_length htu
      rw [List.length_map] at hprojlen
      rw [he] at h1
      omega
    apply decide_eq_decide.mpr
    apply not_congr
    simp only [List.mem_dedup, seenCanon, List.map_append, List.map_cons, List.mem_append,
      List.mem_cons]
    constructor
    · rintro (h | h | h)
      · exact Or.inl h
      · exact absurd h hne
      · exact Or.inr h
    · rintro (h | h)
      · exact Or.inl h
      · exact Or.inr (Or.inr h)
  unfold grid_search_next_runs
  simp only [SweepConfigOf, ite_self, bne_self_eq_false, Bool.false_eq_true, if_false, hfind]
  rw [hany, hremeq]

/-- Witness for C8 amended: a history run with an empty config does not
change the result of a request on the one-parameter space a ∈ {1,2}. -/
theorem C8_missing_key_witness :
    grid_search_next_runs ([] ++ SweepRun.mk [] :: [])
      ⟨some "grid", some [HyperParameter.mk "a" HPType.categorical
        [Value.vint 1, Value.vint 2] Value.vnone]⟩ false 3 false id
    = grid_search_next_runs ([] ++ [])
      ⟨some "grid", some [HyperParameter.mk "a" HPType.categorical
        [Value.vint 1, Value.vint 2] Value.vnone]⟩ false 3 false id
    ∧ projCanon (([HyperParameter.mk "a" HPType.categorical
        [Value.vint 1, Value.vint 2] Value.vnone].filter
        (fun p => p.type == HPType.categorical)).map (fun p => p.name)) (SweepRun.mk []).config
      ∉ universeCanon ([HyperParameter.mk "a" HPType.categorical
        [Value.vint 1, Value.vint 2] Value.vnone].filter
        (fun p => p.type == HPType.categorical)) :=
  C8_missing_key_amended rfl (by decide) rfl

/-- When every categorical name is present in a config and the stored
values are canonical fixpoints, the legacy unconditional projection agrees
with the canonicalizing guarded projection. -/
theorem projLegacy_eq_ok {names : List String} {c : Config}
    (h : ∀ nm ∈ names, (List.lookup nm c).isSome = true)
    (hsc : ∀ nm ∈ names, ∀ v, List.lookup nm c = some v → list_to_tuple v = v) :
    projLegacy names c = .ok (projCanon names c) := by
  induction names with
  | nil => rfl
  | cons nm ns ih =>
    have h1 := h nm (by simp)
    cases hv : List.lookup nm c with
    | none => rw [hv] at h1; simp at h1
    | some v =>
      unfold projLegacy
      rw [hv, ih (fun nm2 h2 => h nm2 (by simp [h2])) (fun nm2 h2 => hsc nm2 (by simp [h2])),
        projCanon_cons_some hv, hsc nm (by simp) v hv]
      rfl

theorem seenLegacy_eq_ok {names : List String} {runsC : List Config}
    (h : ∀ c ∈ runsC, ∀ nm ∈ names, (List.lookup nm c).isSome = true)
    (hsc : ∀ c ∈ runsC, ∀ nm ∈ names, ∀ v, List.lookup nm c = some v → list_to_tuple v = v) :
    seenLegacy names (runsC.map Run.mk) = .ok (runsC.map (fun c => projCanon names c)) := by
  induction runsC with
  | nil => rfl
  | cons c cs ih =>
    simp only [List.map_cons]
    unfold seenLegacy
    rw [show (Run.mk c).config = c from rfl,
      projLegacy_eq_ok (h c (by simp)) (hsc c (by simp)),
      ih (fun c2 h2 => h c2 (by simp [h2])) (fun c2 h2 => hsc c2 (by simp [h2]))]
    rfl

theorem mem_projCanon {names : List String} {c : Config} {v : Value}
    (hv : v ∈ projCanon names c) :
    ∃ nm ∈ names, ∃ w, List.lookup nm c = some w ∧ v = list_to_tuple w := by
  unfold projCanon at hv
  obtain ⟨nm, hnm, hmap⟩ := List.mem_filterMap.mp hv
  cases hw : List.lookup nm c with
  | none => rw [hw] at hmap; cases hmap
  | some w =>
    rw [hw] at hmap
    exact ⟨nm, hnm, w, hw, (Option.some.inj hmap).symm⟩

/-- When un-canonicalization is the identity on the chosen grid point, the
materialized categorical entries are exactly the name-value zip the legacy
implementation produces. -/
theorem zipWith_name_eq_zip {D : List HyperParameter} {t : List Value}
    (h : ∀ v ∈ t, tuple_to_list v = v) :
    List.zipWith (fun p v => (p.name, tuple_to_list v)) D t
      = (D.map (fun p => p.name)).zip t := by
  induction D generalizing t with
  | nil => simp
  | cons p ds ih =>
    cases t with
    | nil => simp
    | cons v vt =>
      simp only [List.zipWith_cons_cons, List.map_cons, List.zip_cons_cons]
      rw [h v (by simp), ih (fun w hw => h w (by simp [hw]))]

/-- C9 is false on the code: on a space with a constant parameter the two
implementations do not return the same suggested configuration even up to
output shape — grid_search_next_runs includes the constant c = 5,
grid_search_next_run omits it. -/
theorem C9_equivalence_cex :
    grid_search_next_runs []
      ⟨some "grid", some [HyperParameter.mk "a" HPType.categorical [Value.vint 1] Value.vnone,
                          HyperParameter.mk "c" HPType.constant [] (Value.vint 5)]⟩
      false 1 false id
      = .ok [some (SweepRun.mk [("c", Value.vint 5), ("a", Value.vint 1)])] ∧
    grid_search_next_run []
      ⟨some "grid", some [HyperParameter.mk "a" HPType.categorical [Value.vint 1] Value.vnone,
                          HyperParameter.mk "c" HPType.constant [] (Value.vint 5)]⟩
      false id
      = .ok (some (Run.mk [("a", Value.vint 1)])) ∧
    List.lookup "c" ([("c", Value.vint 5), ("a", Value.vint 1)] : Config) = some (Value.vint 5) ∧
    List.lookup "c" ([("a", Value.vint 1)] : Config) = none :=
  ⟨rfl, rfl, rfl, rfl⟩

/-- C9 amended: restricted to the domain where the two implementations are
defined and canonicalization is trivial — no constant parameters, scalar
candidate and history values, every history config binding every
categorical name, and a common shuffle — the legacy grid_search_next_run
agrees with the single element of grid_search_next_runs with n = 1, with
none in place of the list-wrapped sentinel. -/
theorem C9_equivalence_amended {runsC : List Config} {params : List HyperParameter}
    {validate : Bool} {randomize_order : Bool}
    {shuffle : List (List Value) → List (List Value)}
    (hperm : ∀ l, (shuffle l).Perm l)
    (hfind : params.find? disallowedType = none)
    (hnoconst : ∀ p ∈ params, p.type ≠ HPType.constant)
    (hscalar : ∀ p ∈ params, ∀ v ∈ p.values, v.scalar = true)
    (hkeys : ∀ c ∈ runsC, ∀ nm ∈ (params.filter (fun p => p.type == HPType.categorical)).map
      (fun p => p.name), (List.lookup nm c).isSome = true)
    (hvals : ∀ c ∈ runsC, ∀ nm ∈ (params.filter (fun p => p.type == HPType.categorical)).map
      (fun p => p.name), ∀ v, List.lookup nm c = some v → v.scalar = true) :
    (grid_search_next_runs (runsC.map SweepRun.mk) ⟨some "grid", some params⟩ validate 1
        randomize_order shuffle = .ok [none] ∧
     grid_search_next_run (runsC.map Run.mk) ⟨some "grid", some params⟩
        randomize_order shuffle = .ok none) ∨
    (∃ c : Config,
     grid_search_next_runs (runsC.map SweepRun.mk) ⟨some "grid", some params⟩ validate 1
        randomize_order shuffle = .ok [some (SweepRun.mk c)] ∧
     grid_search_next_run (runsC.map Run.mk) ⟨some "grid", some params⟩
        randomize_order shuffle = .ok (some (Run.mk c))) := by
  have hcv : (params.filter (fun p => p.type == HPType.categorical)).map canonValues
      = (params.filter (fun p => p.type == HPType.categorical)).map (fun p => p.values) := by
    apply List.map_congr_left
    intro p hp
    unfold canonValues
    rw [List.map_congr_left
      (fun v hv => list_to_tuple_scalar (hscalar p (List.mem_filter.mp hp).1 v hv)),
      List.map_id']
  have hUeq : universeCanon (params.filter (fun p => p.type == HPType.categorical))
      = listProd ((params.filter (fun p => p.type == HPType.categorical)).map
        (fun p => p.values)) := by
    unfold universeCanon
    rw [hcv]
  have hUscalar : ∀ t ∈ universeCanon (params.filter (fun p => p.type == HPType.categorical)),
      ∀ v ∈ t, v.scalar = true := by
    intro t ht v hv
    rw [hUeq] at ht
    obtain ⟨l, hl, hvl⟩ := forall₂_mem_left (mem_listProd.mp ht) hv
    obtain ⟨p, hp, rfl⟩ := List.mem_map.mp hl
    exact hscalar p (List.mem_filter.mp hp).1 v hvl
  have huni : (universeCanon (params.filter (fun p => p.type == HPType.categorical))).any
      (fun t => !t.all Value.hashable) = false := by
    apply List.any_eq_false.mpr
    intro t ht
    have h1 : t.all Value.hashable = true :=
      List.all_eq_true.mpr (fun v hv => hashable_of_scalar (hUscalar t ht v hv))
    simp [h1]
  have huniL : (listProd ((params.filter (fun p => p.type == HPType.categorical)).map
      (fun p => p.values))).any (fun t => !t.all Value.hashable) = false := by
    rw [← hUeq]; exact huni
  have hseenC : seenCanon ((params.filter (fun p => p.type == HPType.categorical)).map
      (fun p => p.name)) (runsC.map SweepRun.mk)
      = runsC.map (fun c => projCanon ((params.filter
        (fun p => p.type == HPType.categorical)).map (fun p => p.name)) c) := by
    simp [seenCanon, List.map_map, Function.comp_def]
  have hlegseen : seenLegacy ((params.filter (fun p => p.type == HPType.categorical)).map
      (fun p => p.name)) (runsC.map Run.mk)
      = .ok (runsC.map (fun c => projCanon ((params.filter
        (fun p => p.type == HPType.categorical)).map (fun p => p.name)) c)) :=
    seenLegacy_eq_ok hkeys
      (fun c hc nm hnm v hv => list_to_tuple_scalar (hvals c hc nm hnm v hv))
  have hseenh : (runsC.map (fun c => projCanon ((params.filter
      (fun p => p.type == HPType.categorical)).map (fun p => p.name)) c)).any
      (fun t => !t.all Value.hashable) = false := by
    apply List.any_eq_false.mpr
    intro t ht
    obtain ⟨c, hc, rfl⟩ := List.mem_map.mp ht
    have h1 : (projCanon ((params.filter (fun p => p.type == HPType.categorical)).map
        (fun p => p.name)) c).all Value.hashable = true := by
      apply List.all_eq_true.mpr
      intro v hv
      obtain ⟨nm, hnm, w, hw, rfl⟩ := mem_projCanon hv
      rw [list_to_tuple_scalar (hvals c hc nm hnm w hw)]
      exact hashable_of_scalar (hvals c hc nm hnm w hw)
    simp [h1]
  have hseenhC : (seenCanon ((params.filter (fun p => p.type == HPType.categorical)).map
      (fun p => p.name)) (runsC.map SweepRun.mk)).any (fun t => !t.all Value.hashable)
      = false := by
    rw [hseenC]; exact hseenh
  have hCnil : params.filter (fun p => p.type == HPType.constant) = [] :=
    List.filter_eq_nil_iff.mpr (fun p hp => by simp [hnoconst p hp])
  have hremeq : remainingCanon (params.filter (fun p => p.type == HPType.categorical))
      ((params.filter (fun p => p.type == HPType.categorical)).map (fun p => p.name))
      (runsC.map SweepRun.mk)
      = remainingLegacy (params.filter (fun p => p.type == HPType.categorical))
        (runsC.map (fun c => projCanon ((params.filter
          (fun p => p.type == HPType.categorical)).map (fun p => p.name)) c)) := by
    unfold remainingCanon remainingLegacy
    rw [hseenC, hUeq]
  rw [grid_search_next_runs_ok validate 1 randomize_order shuffle hfind huni hseenhC,
    grid_search_next_run_ok randomize_order shuffle hfind huniL hlegseen hseenh]
  simp only [hremeq]
  have hlen' : (if randomize_order then
      shuffle (remainingLegacy (params.filter (fun p => p.type == HPType.categorical))
        (runsC.map (fun c => projCanon ((params.filter
          (fun p => p.type == HPType.categorical)).map (fun p => p.name)) c)))
    else remainingLegacy (params.filter (fun p => p.type == HPType.categorical))
        (runsC.map (fun c => projCanon ((params.filter
          (fun p => p.type == HPType.categorical)).map (fun p => p.name)) c))).length
      = (remainingLegacy (params.filter (fun p => p.type == HPType.categorical))
        (runsC.map (fun c => projCanon ((params.filter
          (fun p => p.type == HPType.categorical)).map (fun p => p.name)) c))).length := by
    cases randomize_order with
    | false => rfl
    | true => simpa using (hperm _).length_eq
  cases hrem : (if randomize_order then
      shuffle (remainingLegacy (params.filter (fun p => p.type == HPType.categorical))
        (runsC.map (fun c => projCanon ((params.filter
          (fun p => p.type == HPType.categorical)).map (fun p => p.name)) c)))
    else remainingLegacy (params.filter (fun p => p.type == HPType.categorical))
        (runsC.map (fun c => projCanon ((params.filter
          (fun p => p.type == HPType.categorical)).map (fun p => p.name)) c))) with
  | nil =>
    left
    have h0 : (remainingLegacy (params.filter (fun p => p.type == HPType.categorical))
        (runsC.map (fun c => projCanon ((params.filter
          (fun p => p.type == HPType.categorical)).map (fun p => p.name)) c))).length = 0 := by
      rw [← hlen', hrem]; rfl
    constructor
    · rw [h0]
      rfl
    · rfl
  | cons t ts =>
    right
    have htmem : t ∈ remainingLegacy (params.filter (fun p => p.type == HPType.categorical))
        (runsC.map (fun c => projCanon ((params.filter
          (fun p => p.type == HPType.categorical)).map (fun p => p.name)) c)) := by
      have h1 : t ∈ (if randomize_order then
          shuffle (remainingLegacy (params.filter (fun p => p.type == HPType.categorical))
            (runsC.map (fun c => projCanon ((params.filter
              (fun p => p.type == HPType.categorical)).map (fun p => p.name)) c)))
        else remainingLegacy (params.filter (fun p => p.type == HPType.categorical))
            (runsC.map (fun c => projCanon ((params.filter
              (fun p => p.type == HPType.categorical)).map (fun p => p.name)) c))) := by
        rw [hrem]; simp
      cases randomize_order with
      | false => simpa using h1
      | true =>
        rw [if_pos rfl] at h1
        exact (hperm _).mem_iff.mp h1
    have htu : t ∈ universeCanon (params.filter (fun p => p.type == HPType.categorical)) := by
      unfold remainingLegacy at htmem
      have h1 := (List.mem_filter.mp htmem).1
      rw [hUeq]
      exact List.mem_dedup.mp h1
    have htscalar : ∀ v ∈ t, tuple_to_list v = v :=
      fun v hv => tuple_to_list_scalar (hUscalar t htu v hv)
    have hlenpos : 0 < (remainingLegacy (params.filter
        (fun p => p.type == HPType.categorical))
        (runsC.map (fun c => projCanon ((params.filter
          (fun p => p.type == HPType.categorical)).map (fun p => p.name)) c))).length := by
      rw [← hlen', hrem]
      simp
    refine ⟨((params.filter (fun p => p.type == HPType.categorical)).map
      (fun p => p.name)).zip t, ?_, ?_⟩
    · rw [show min 1 (remainingLegacy (params.filter (fun p => p.type == HPType.categorical))
        (runsC.map (fun c => projCanon ((params.filter
          (fun p => p.type == HPType.categorical)).map (fun p => p.name)) c))).length = 1
        from by omega]
      rw [if_neg (by omega)]
      simp only [List.take_succ_cons, List.take_zero, List.map_cons, List.map_nil]
      rw [show mkOutputConfig (params.filter (fun p => p.type == HPType.categorical))
        ((params.filter (fun p => p.type == HPType.constant)).map (fun p => (p.name, p.value)))
        t = ((params.filter (fun p => p.type == HPType.categorical)).map
          (fun p => p.name)).zip t from by
        unfold mkOutputConfig
        rw [hCnil, zipWith_name_eq_zip htscalar]
        rfl]
    · rfl

/-- Witness for C9 amended on the space a ∈ {1,2} with the point a = 1
already observed. -/
theorem C9_equivalence_witness :
    (grid_search_next_runs ([[("a", Value.vint 1)]].map SweepRun.mk)
        ⟨some "grid", some [HyperParameter.mk "a" HPType.categorical
          [Value.vint 1, Value.vint 2] Value.vnone]⟩ false 1 false id = .ok [none] ∧
     grid_search_next_run ([[("a", Value.vint 1)]].map Run.mk)
        ⟨some "grid", some [HyperParameter.mk "a" HPType.categorical
          [Value.vint 1, Value.vint 2] Value.vnone]⟩ false id = .ok none) ∨
    (∃ c : Config,
     grid_search_next_runs ([[("a", Value.vint 1)]].map SweepRun.mk)
        ⟨some "grid", some [HyperParameter.mk "a" HPType.categorical
          [Value.vint 1, Value.vint 2] Value.vnone]⟩ false 1 false id
        = .ok [some (SweepRun.mk c)] ∧
     grid_search_next_run ([[("a", Value.vint 1)]].map Run.mk)
        ⟨some "grid", some [HyperParameter.mk "a" HPType.categorical
          [Value.vint 1, Value.vint 2] Value.vnone]⟩ false id
        = .ok (some (Run.mk c))) :=
  C9_equivalence_amended (fun l => List.Perm.refl l) rfl (by decide) (by decide) (by decide)
    (by
      intro c hc nm hnm v hv
      have hc2 : c = [("a", Value.vint 1)] := List.mem_singleton.mp hc
      have he : (([HyperParameter.mk "a" HPType.categorical
          [Value.vint 1, Value.vint 2] Value.vnone].filter
          (fun p => p.type == HPType.categorical)).map (fun p => p.name)) = ["a"] := rfl
      rw [he] at hnm
      have hnm2 : nm = "a" := List.mem_singleton.mp hnm
      subst hc2
      subst hnm2
      have h2 : (some (Value.vint 1) : Option Value) = some v := by rw [← hv]; rfl
      obtain rfl : Value.vint 1 = v := Option.some.inj h2
      rfl)
